import Mathlib

/-!
Shallow embedding of the CSV inventory ingestion pipeline of
`services` (source file: the inventory fetch/parse module).  The
JavaScript string-and-number semantics the pipeline relies on is made
explicit:

* JS strings are modelled as Lean `String` (a wrapper around `List Char`);
  all character-level operations (`trim`, `toLowerCase`, `includes`,
  `replace`, regex strips) are re-implemented on `List Char` so that every
  definition is executable and kernel-reducible.  The model covers the
  ASCII range of the JS Unicode operations, which is the range the
  pipeline's own literals and filters live in.
* JS numbers appearing as quantities are modelled as `Option Int`, with
  `none` playing the role of `NaN` (`parseInt` can return `NaN`); the JS
  comparison operators, for which every comparison with `NaN` is false,
  are modelled by `jsLe`, `jsLt`, `jsGt`, `jsGe`, `jsEqZ` below.
  Prices are modelled as `Option ℚ` (again `none` = `NaN`); binary
  floating point rounding is not modelled (no claim depends on it).
* A thrown JS exception is modelled by `Option.none` at the level of the
  row builder and of the whole parse (`buildItem`, `parseInventory`).
* `charCodeAt` is modelled by `Char.toNat`, which agrees with UTF-16 code
  units on the Basic Multilingual Plane.
* The `raw` audit field of a record (the original header → cell map,
  a passthrough never read by any logic under specification) is not
  carried in the model.
-/

/-- JS whitespace (ASCII fragment of `\s` / `String.prototype.trim`). -/
def isWs (c : Char) : Bool :=
  c = ' ' || c = '\t' || c = '\n' || c = '\r' || c = '\x0b' || c = '\x0c'

/-- ASCII lower-casing, the fragment of JS `toLowerCase` the pipeline uses. -/
def loChar (c : Char) : Char :=
  if 'A' ≤ c ∧ c ≤ 'Z' then Char.ofNat (c.toNat + 32) else c

/-- ASCII upper-casing, the fragment of JS `toUpperCase` the pipeline uses. -/
def upChar (c : Char) : Char :=
  if 'a' ≤ c ∧ c ≤ 'z' then Char.ofNat (c.toNat - 32) else c

/-- ASCII letter test, the class `[A-Za-z]` of the column-letter regex. -/
def isLetterB (c : Char) : Bool :=
  ('A' ≤ c ∧ c ≤ 'Z') ∨ ('a' ≤ c ∧ c ≤ 'z')

/-- Drop leading and trailing whitespace from a character list (JS `trim`). -/
def trimL (l : List Char) : List Char :=
  ((l.dropWhile isWs).reverse.dropWhile isWs).reverse

/-- JS `String.prototype.trim` on the model's strings. -/
def trimS (s : String) : String := ⟨trimL s.data⟩

/-- JS `String.prototype.toLowerCase` (ASCII fragment). -/
def lowerS (s : String) : String := ⟨s.data.map loChar⟩

/-- Substring test on character lists: does `hay` contain `needle`? -/
def infixB (needle : List Char) : List Char → Bool
  | [] => needle.isEmpty
  | c :: t => needle.isPrefixOf (c :: t) || infixB needle t

/-- JS `String.prototype.includes hay.includes needle`. -/
def containsS (hay needle : String) : Bool := infixB needle.data hay.data

/-- JS `String.prototype.startsWith`. -/
def startsWithS (s p : String) : Bool := p.data.isPrefixOf s.data

/-- JS `String.prototype.endsWith`. -/
def endsWithS (s p : String) : Bool := p.data.isSuffixOf s.data

/-- JS falsy-string coalescing `a || b` (the empty string is falsy). -/
def jsOr (a b : String) : String := if a = "" then b else a

/-- JS `text.split('\n')` on character lists. -/
def splitNl : List Char → List (List Char)
  | [] => [[]]
  | c :: rest =>
    if c = '\n' then [] :: splitNl rest
    else
      match splitNl rest with
      | [] => [[c]]
      | h :: t => (c :: h) :: t

/-- JS comparisons on a quantity that may be `NaN` (`none`): any comparison
with `NaN` is false. -/
def jsLe : Option Int → Int → Bool
  | none, _ => false
  | some v, n => v ≤ n

/-- JS `<` against `NaN`-able left operand. -/
def jsLt : Option Int → Int → Bool
  | none, _ => false
  | some v, n => v < n

/-- JS `>` against `NaN`-able left operand. -/
def jsGt : Option Int → Int → Bool
  | none, _ => false
  | some v, n => v > n

/-- JS `>=` against `NaN`-able left operand. -/
def jsGe : Option Int → Int → Bool
  | none, _ => false
  | some v, n => v ≥ n

/-- JS strict equality `q === 0` for a `NaN`-able quantity
(`NaN === 0` is false). -/
def jsEqZ : Option Int → Bool
  | none => false
  | some v => v = 0

/-- Decimal value of a digit run (used by the `parseInt`/`parseFloat` models). -/
def natVal (l : List Char) : Nat :=
  l.foldl (fun a c => a * 10 + (c.toNat - 48)) 0

/-- Longest digit prefix value; `none` when there is no leading digit. -/
def digitsVal (l : List Char) : Option Nat :=
  if (l.takeWhile Char.isDigit).isEmpty then none else some (natVal (l.takeWhile Char.isDigit))

/-- JS `parseInt(s, 10)`: skip leading whitespace, optional sign, then the
longest digit prefix; `none` (`NaN`) when no digit follows the sign. -/
def jsParseInt (s : String) : Option Int :=
  let l := s.data.dropWhile isWs
  if l.head? = some '-' then (digitsVal l.tail).map fun n => -(Int.ofNat n)
  else if l.head? = some '+' then (digitsVal l.tail).map fun n => Int.ofNat n
  else (digitsVal l).map fun n => Int.ofNat n

/-- JS `parseFloat` restricted to sign-free input (the pipeline only calls it
on strings stripped down to digits and periods): longest prefix
`digits [. digits]`, `none` (`NaN`) when it contains no digit. -/
def jsParseFloat (s : String) : Option ℚ :=
  let l := s.data.dropWhile isWs
  let ip := l.takeWhile Char.isDigit
  let rest := l.drop ip.length
  match rest with
  | '.' :: r2 =>
    let fp := r2.takeWhile Char.isDigit
    if ip.isEmpty ∧ fp.isEmpty then none
    else some ((natVal ip : ℚ) + (natVal fp : ℚ) / ((10 : ℚ) ^ fp.length))
  | _ => if ip.isEmpty then none else some (natVal ip : ℚ)

/-- Wrap an integer to signed 32 bits, the effect of JS `| 0`. -/
def toInt32 (x : Int) : Int := (x + 2 ^ 31) % 2 ^ 32 - 2 ^ 31

/-- One step of the fallback-id hash: JS `((hash << 5) - hash) + char`
followed by `hash |= 0`.  The shift itself wraps to 32 bits. -/
def hashStep (h : Int) (c : Nat) : Int := toInt32 (toInt32 (h * 32) - h + (c : Int))

/-- The 32-bit rolling hash of the id fallback, folded over the string's
character codes starting from 0. -/
def jsHashString (s : String) : Int :=
  s.data.foldl (fun h c => hashStep h c.toNat) 0

/-- Strip every character that is not a digit or a minus sign
(JS `replace(/[^0-9-]/g, '')`). -/
def stripDigitsMinus (s : String) : String :=
  ⟨s.data.filter fun c => c.isDigit || c = '-'⟩

/-- Strip every character that is not a digit or a period
(JS `replace(/[^0-9.]/g, '')`). -/
def stripDigitsDot (s : String) : String :=
  ⟨s.data.filter fun c => c.isDigit || c = '.'⟩

/-- Join a list of strings with a separator (JS `Array.prototype.join`). -/
def joinSep (sep : String) : List String → String
  | [] => ""
  | [x] => x
  | x :: y :: t => x ++ sep ++ joinSep sep (y :: t)

/-! ## CSV tokenizer (`parseCSVLine`) -/

/-- JS `replace(/""/g, '"')`: decode each doubled quote, left to right and
without overlap. -/
def replacePairQuote : List Char → List Char
  | '"' :: '"' :: rest => '"' :: replacePairQuote rest
  | c :: rest => c :: replacePairQuote rest
  | [] => []

/-- Unquote one raw field: trim it, and if it both starts and ends with a
double quote, drop the outer quotes and decode doubled quotes.  The
single-character field `"` hits JS `substring(1, 0)`, which swaps its
arguments and returns the whole string. -/
def finalizeField (cs : List Char) : String :=
  let val : String := ⟨trimL cs⟩
  if startsWithS val "\"" ∧ endsWithS val "\"" then
    if val.length = 1 then val
    else ⟨replacePairQuote ((val.data.drop 1).dropLast)⟩
  else val

/-- Character walk of `parseCSVLine`: toggle quote state on `"`, split on a
comma only when outside quotes, keep every character (quotes included) in
the current raw field. -/
def parseCSVLineAux : List Char → Bool → List Char → List String
  | [], _, cur => [finalizeField cur.reverse]
  | c :: rest, inQ, cur =>
    if c = '"' then parseCSVLineAux rest (!inQ) (c :: cur)
    else if c = ',' ∧ inQ = false then
      finalizeField cur.reverse :: parseCSVLineAux rest inQ []
    else parseCSVLineAux rest inQ (c :: cur)

/-- The CSV tokenizer: one line of text to its ordered list of field values. -/
def parseCSVLine (line : String) : List String :=
  parseCSVLineAux line.data false []

/-! ## Column letters and the three-tier column resolver -/

/-- Character-list core of the column-letter conversion: delete every
non-letter character, upper-case the rest, and read the result in base 26
with `A = 1`; `-1` when no letters remain. -/
def getColumnIndexL (l : List Char) : Int :=
  if ((l.filter isLetterB).map upChar).isEmpty then -1
  else ((l.filter isLetterB).map upChar).foldl
    (fun ix c => ix * 26 + ((c.toNat : Int) - 64)) 0 - 1

/-- Convert a user-supplied column letter (`"A"`, `"AA"`, …) to a zero-based
index; `-1` when the value is absent, empty, or has no letters at all. -/
def getColumnIndex (letter : Option String) : Int :=
  match letter with
  | none => -1
  | some s => if s = "" then -1 else getColumnIndexL s.data

/-- First index of a (pre-normalized) header containing one of the keywords
as a substring, `-1` when there is none (JS `findIndex`). -/
def findKeywordIdx (keywords : List String) (headers : List String) : Int :=
  match headers.findIdx? (fun h => keywords.any fun k => containsS h k) with
  | some i => (i : Int)
  | none => -1

/-- Three-tier column resolution: explicit user column letter, else first
keyword match over the normalized headers, else the hardcoded fallback. -/
def resolveIndex (userVal : Option String) (keywords : List String)
    (fallbackIdx : Int) (headers : List String) : Int :=
  let userIdx := getColumnIndex userVal
  if userIdx > -1 then userIdx
  else
    let autoIdx := findKeywordIdx keywords headers
    if autoIdx ≠ -1 then autoIdx else fallbackIdx

/-- Header normalization: lower-case and delete whitespace and underscores
(JS `h.toLowerCase().replace(/[\s_]+/g, '')`). -/
def normalizeHeader (h : String) : String :=
  ⟨(h.data.map loChar).filter fun c => !(isWs c || c = '_')⟩

/-! ## Description cleanup (the two bracketed-tag regex replaces) -/

/-- Case-insensitive match of a fixed lower-case word at the head of the
input, returning the rest. -/
def eatCI : List Char → List Char → Option (List Char)
  | [], l => some l
  | _ :: _, [] => none
  | w :: ws, c :: l => if loChar c = w then eatCI ws l else none

/-- Match the tag body `\(\s*W1\s*W2\s*\)` (case-insensitive) at the head of
the input, returning the remainder after the closing parenthesis. -/
def matchTag (w1 w2 : List Char) : List Char → Option (List Char)
  | '(' :: rest =>
    match eatCI w1 (rest.dropWhile isWs) with
    | none => none
    | some r2 =>
      match eatCI w2 (r2.dropWhile isWs) with
      | none => none
      | some r4 =>
        match r4.dropWhile isWs with
        | ')' :: r6 => some r6
        | _ => none
  | _ => none

/-- Global scan for `(\s+)(tag)` matches away from the start of the string:
at a whitespace run, the greedy `\s+` consumes the whole run, so the tag can
only match right after it; a successful match (run plus tag) is replaced by
one space.  `fuel` bounds recursion depth; every call site passes
`length + 1`, which suffices since each step consumes at least one
character. -/
def tagScan (m : List Char → Option (List Char)) : Nat → List Char → List Char
  | 0, l => l
  | _ + 1, [] => []
  | fuel + 1, c :: rest =>
    if isWs c then
      match m ((c :: rest).dropWhile isWs) with
      | some r2 => ' ' :: tagScan m fuel r2
      | none => (c :: rest).takeWhile isWs ++ tagScan m fuel ((c :: rest).dropWhile isWs)
    else c :: tagScan m fuel rest

/-- JS `replace(/(^|\s+)TAG/gi, ' ')`: the `^` alternative can only fire at
position 0; afterwards the global scan continues with the `\s+` boundary. -/
def replaceTag (m : List Char → Option (List Char)) (l : List Char) : List Char :=
  match m l with
  | some r => ' ' :: tagScan m (r.length + 1) r
  | none => tagScan m (l.length + 1) l

/-- Collapse every whitespace run to a single space
(JS `replace(/\s+/g, ' ')`), fueled like `tagScan`. -/
def collapseWsF : Nat → List Char → List Char
  | 0, l => l
  | _ + 1, [] => []
  | fuel + 1, c :: rest =>
    if isWs c then ' ' :: collapseWsF fuel (rest.dropWhile isWs)
    else c :: collapseWsF fuel rest

/-- Collapse whitespace runs to single spaces. -/
def collapseWs (l : List Char) : List Char := collapseWsF (l.length + 1) l

/-- Matcher for the `( FLOW FORMING )` tag. -/
def tagFlowForming : List Char → Option (List Char) := matchTag "flow".data "forming".data

/-- Matcher for the `( new arrive )` tag. -/
def tagNewArrive : List Char → Option (List Char) := matchTag "new".data "arrive".data

/-- Description cleanup of the record builder: strip the `(FLOW FORMING)`
tag, then the `(new arrive)` tag, then normalize whitespace and trim. -/
def cleanName (s : String) : String :=
  ⟨trimL (collapseWs (replaceTag tagNewArrive (replaceTag tagFlowForming s.data)))⟩

/-! ## Data model and the record builder -/

/-- The optional user column mapping (`Partial<ColumnMapping>`): each role
may carry a spreadsheet column letter. -/
structure ColumnMapping where
  model : Option String
  sku : Option String
  partNumber : Option String
  productDetails : Option String
  productImage : Option String
  quantity : Option String
  altStock : Option String
  eta1 : Option String
  eta2 : Option String
  eta3 : Option String
  eta4 : Option String
  eta5 : Option String
  weight : Option String
  shippingWeight : Option String

/-- A mapping with no user-supplied column letters. -/
def emptyMapping : ColumnMapping :=
  ⟨none, none, none, none, none, none, none, none, none, none, none, none, none, none⟩

/-- The resolved column index of every role, `-1` meaning unresolved. -/
structure ResolvedCols where
  model : Int
  sku : Int
  partNum : Int
  details : Int
  image : Int
  qty : Int
  alt : Int
  eta1 : Int
  eta2 : Int
  eta3 : Int
  eta4 : Int
  eta5 : Int
  weight : Int
  shipWeight : Int
  loc : Int
  price : Int

/-- The normalized inventory record.  `quantity`/`altQuantity` use `none`
for JS `NaN`; `etas`, `altQuantity`, `weight`, `shippingWeight` use `none`
for JS `undefined`; `price` uses `none` for `NaN`.  The `raw` audit map of
the source is not modelled. -/
structure InventoryItem where
  id : String
  sku : String
  partNumber : String
  name : String
  quantity : Option Int
  location : String
  category : String
  price : Option ℚ
  imageUrl : String
  status : String
  eta : String
  etas : Option (List String)
  altQuantity : Option Int
  weight : Option String
  shippingWeight : Option String
deriving DecidableEq, Repr

/-- Safe indexed cell lookup `getVal`: empty string when the index is `-1`
or beyond the row, otherwise the trimmed cell. -/
def getValF (cols : List String) (idx : Int) : String :=
  if idx > -1 ∧ idx < (cols.length : Int) then trimS (cols.getD idx.toNat "") else ""

/-- The status chain of the builder: `quantity <= 0` → Out of Stock, else
`quantity < 8` → Low Stock, else In Stock (JS comparisons, so `NaN` falls
through to In Stock). -/
def statusOf (q : Option Int) : String :=
  if jsLe q 0 then "Out of Stock" else if jsLt q 8 then "Low Stock" else "In Stock"

/-- The five ETA slots in order. -/
def etaIdxList (r : ResolvedCols) : List Int := [r.eta1, r.eta2, r.eta3, r.eta4, r.eta5]

/-- The price cell access `idxPrice > -1 ? cols[idxPrice] : '0'`.  Unlike
`getVal` it does not range-check the row: a resolved price column beyond
the row's end yields JS `undefined` (modelled `none`), on which the
subsequent `.replace` call throws. -/
def priceCellOpt (r : ResolvedCols) (cols : List String) : Option String :=
  if r.price > -1 then cols.get? r.price.toNat else some "0"

/-- Build one record from a raw row given the resolved indices and the
(already looked-up) price cell; direct translation of the builder body. -/
def mkItem (r : ResolvedCols) (cols : List String) (priceCell : String) : InventoryItem :=
  let getVal := getValF cols
  let sku := getVal r.sku
  let partNumber := getVal r.partNum
  let category := jsOr (getVal r.model) "Uncategorized"
  let name := cleanName (getVal r.details)
  let id0 := jsOr sku partNumber
  let id :=
    if id0 ≠ "" then id0
    else
      let idName : String := ⟨name.data.filter fun c => !(isWs c)⟩
      if idName ≠ "" then idName
      else "GEN-" ++ toString (jsHashString (category ++ "-" ++ getVal r.loc)).natAbs
  let imageUrl0 := getVal r.image
  let imageUrl := if imageUrl0 ≠ "" ∧ startsWithS imageUrl0 "http" = false then "" else imageUrl0
  let quantity := jsParseInt (jsOr (stripDigitsMinus (getVal r.qty)) "0")
  let altVal := stripDigitsMinus (getVal r.alt)
  let altParsed : Option (Option Int) := if altVal ≠ "" then some (jsParseInt altVal) else none
  let altQuantity : Option Int :=
    match altParsed with
    | some (some v) => some v
    | _ => none
  let status := statusOf quantity
  let etas := ((etaIdxList r).map getVal).filter fun v => v ≠ "" && lowerS v ≠ "n/a"
  let eta := joinSep ", " etas
  let weight := if getVal r.weight ≠ "" then some (getVal r.weight) else none
  let shippingWeight := if getVal r.shipWeight ≠ "" then some (getVal r.shipWeight) else none
  let location :=
    match (if r.loc > -1 then cols.get? r.loc.toNat else some "") with
    | some s => if s = "" then "Unassigned" else s
    | none => "Unassigned"
  let price := jsParseFloat (jsOr (stripDigitsDot priceCell) "0")
  ⟨id, sku, partNumber, name, quantity, location, category, price, imageUrl, status, eta,
   if etas.length > 0 then some etas else none, altQuantity, weight, shippingWeight⟩

/-- Build one record from a raw row; `none` models the `TypeError` thrown
when the price cell lookup lands beyond the row. -/
def buildItem (r : ResolvedCols) (cols : List String) : Option InventoryItem :=
  (priceCellOpt r cols).map (mkItem r cols)

/-- The fixed set of header-keyword strings of the row filter. -/
def headerKeywords : List String :=
  ["part #", "part number", "sku", "part no.", "item id", "id", "description", "desc",
   "qty", "quantity"]

/-- The row filter, stage for stage from the source: valid id, junk-row
test, fitment test, highoffset test, repeated-header test, and the
description-with-zero-quantity test. -/
def keepItem (item : InventoryItem) : Bool :=
  if item.id = "" then false
  else if ¬(item.name ≠ "" ∧ trimS item.name ≠ "") ∧ ¬(jsGt item.quantity 0 = true) ∧
      ¬(item.category ≠ "" ∧ item.category ≠ "Uncategorized") then false
  else if containsS (lowerS item.name) "fitment" then false
  else if (item.partNumber ≠ "" ∧ containsS (lowerS item.partNumber) "(highoffset)" = true)
      ∨ containsS (lowerS item.id) "(highoffset)" = true then false
  else if headerKeywords.contains (trimS (lowerS item.id)) ∨
      headerKeywords.contains (trimS (lowerS item.name)) then false
  else if containsS (trimS (lowerS item.name)) "description" = true ∧
      jsEqZ item.quantity = true then false
  else true

/-- Split the raw text on newlines and drop lines that are empty after
trimming. -/
def parseInvLines (text : String) : List String :=
  ((splitNl text.data).map fun l => (⟨l⟩ : String)).filter fun l => trimS l ≠ ""

/-- Resolve every role's column index from the user mapping and the
normalized header row, with the source's keyword lists and fallbacks. -/
def resolveAll (m : ColumnMapping) (headers : List String) : ResolvedCols :=
  ⟨resolveIndex m.model ["model", "category", "type", "group"] 1 headers,
   resolveIndex m.sku ["sku", "partnumber", "part#", "id", "itemcode"] 2 headers,
   resolveIndex m.partNumber ["partnumber", "part#", "mpn"] (-1) headers,
   resolveIndex m.productDetails
     ["description", "name", "details", "desc", "title", "producttitle"] 3 headers,
   resolveIndex m.productImage ["image", "url", "photo", "picture"] (-1) headers,
   resolveIndex m.quantity ["qty", "quantity", "stock", "onhand"] 4 headers,
   resolveIndex m.altStock ["alt", "alternate", "reserve"] 6 headers,
   resolveIndex m.eta1 ["eta1", "eta 1"] 7 headers,
   resolveIndex m.eta2 ["eta2", "eta 2"] 8 headers,
   resolveIndex m.eta3 ["eta3", "eta 3"] 9 headers,
   resolveIndex m.eta4 ["eta4", "eta 4"] 11 headers,
   resolveIndex m.eta5 ["eta5", "eta 5"] 12 headers,
   resolveIndex m.weight ["weight", "wt", "mass"] 13 headers,
   resolveIndex m.shippingWeight ["shipping", "shipwt"] (-1) headers,
   findKeywordIdx ["loc", "bin", "shelf", "warehouse"] headers,
   findKeywordIdx ["price", "cost", "msrp"] headers⟩

/-- The normalized header row of the raw text. -/
def headersOf (text : String) : List String :=
  (parseCSVLine ((parseInvLines text).headD "")).map normalizeHeader

/-- Build one record per data line, with the columns resolved from the
header line; `none` models the exception aborting the whole pass. -/
def builtRows (text : String) (m : ColumnMapping) : Option (List InventoryItem) :=
  ((parseInvLines text).drop 1).mapM fun line =>
    buildItem (resolveAll m (headersOf text)) (parseCSVLine line)

/-- The whole parse pass: split lines, fewer than two non-empty lines gives
the empty collection, otherwise resolve columns from the first line, build
a record per remaining line (`none` = a thrown exception aborts the whole
pass) and keep the records passing the row filter. -/
def parseInventory (text : String) (m : ColumnMapping) : Option (List InventoryItem) :=
  if (parseInvLines text).length < 2 then some []
  else
    match builtRows text m with
    | none => none
    | some built => some (built.filter keepItem)

/-! ## Claim-side development: column letters as bijective base 26 -/

/-- Bridge from the `Char` order to code points. -/
theorem charLe_iff (a c : Char) : a ≤ c ↔ a.toNat ≤ c.toNat := by
  simp [Char.le_def, UInt32.le_def, BitVec.le_def, Char.toNat, UInt32.toNat]

/-- Characters with equal code points are equal. -/
theorem charToNat_inj (a b : Char) (h : a.toNat = b.toNat) : a = b := by
  apply Char.ext
  apply UInt32.ext
  exact h

/-- Code point of `Char.ofNat` below the surrogate range. -/
theorem charToNat_ofNat (n : Nat) (h : n < 55296) : (Char.ofNat n).toNat = n := by
  have hv : n.isValidChar := Or.inl h
  simp [Char.ofNat, hv, Char.ofNatAux, Char.toNat, UInt32.toNat]

/-- An upper-case ASCII letter, phrased on code points. -/
def validUpper (c : Char) : Prop := 65 ≤ c.toNat ∧ c.toNat ≤ 90

/-- The upper-case alphabet, index `r` holding the letter of rank `r`. -/
def alphabet : List Char :=
  ['A', 'B', 'C', 'D', 'E', 'F', 'G', 'H', 'I', 'J', 'K', 'L', 'M',
   'N', 'O', 'P', 'Q', 'R', 'S', 'T', 'U', 'V', 'W', 'X', 'Y', 'Z']

/-- The upper-case letter of rank `r` (0-based). -/
def letterOf (r : Nat) : Char := alphabet.getD r 'A'

/-- The base-26 digit value of a column character (`A = 1`). -/
def colDigit (c : Char) : Nat := c.toNat - 64

/-- Base-26 value of a letter string with `A = 1` (bijective numeration),
the fold the conversion performs. -/
def colVal1 (l : List Char) : Nat := l.foldl (fun a c => a * 26 + colDigit c) 0

/-- Decode a 0-based column index back into its letter string. -/
def natToCol (n : Nat) : List Char :=
  if n < 26 then [letterOf n]
  else natToCol (n / 26 - 1) ++ [letterOf (n % 26)]
termination_by n
decreasing_by
  have h2 : n / 26 ≤ n := Nat.div_le_self n 26
  omega

theorem letterOf_bounds : ∀ r < 26, 65 ≤ (letterOf r).toNat ∧ (letterOf r).toNat ≤ 90 := by
  decide

theorem letterOf_toNat : ∀ r < 26, (letterOf r).toNat = 65 + r := by decide

theorem letterOf_code : ∀ t < 91, 65 ≤ t → (letterOf (t - 65)).toNat = t := by decide

/-- Decoding a valid code point gives back the character. -/
theorem letterOf_of_validUpper (c : Char) (h : validUpper c) :
    letterOf (c.toNat - 65) = c := by
  obtain ⟨ha, hb⟩ := h
  apply charToNat_inj
  exact letterOf_code c.toNat (by omega) (by omega)

theorem colVal1_append (l : List Char) (c : Char) :
    colVal1 (l ++ [c]) = colVal1 l * 26 + colDigit c := by
  simp [colVal1, List.foldl_append]

theorem colVal1_foldl_ge (l : List Char) :
    ∀ a : Nat, a ≤ l.foldl (fun x c => x * 26 + colDigit c) a := by
  induction l with
  | nil => intro a; exact Nat.le_refl a
  | cons c t ih =>
    intro a
    have h1 : a ≤ a * 26 + colDigit c := by omega
    exact Nat.le_trans h1 (ih (a * 26 + colDigit c))

/-- A non-empty valid letter string has value at least 1. -/
theorem colVal1_pos (l : List Char) (h2 : ∀ c ∈ l, 65 ≤ c.toNat) (h1 : l ≠ []) :
    1 ≤ colVal1 l := by
  match l with
  | [] => exact absurd rfl h1
  | c :: t =>
    have hc : 65 ≤ c.toNat := h2 c (List.mem_cons_self c t)
    have hd : 1 ≤ colDigit c := by unfold colDigit; omega
    have : colDigit c ≤ colVal1 (c :: t) := by
      show colDigit c ≤ List.foldl (fun x c => x * 26 + colDigit c) (0 * 26 + colDigit c) t
      have := colVal1_foldl_ge t (0 * 26 + colDigit c)
      omega
    omega

theorem natToCol_ne_nil (n : Nat) : natToCol n ≠ [] := by
  rw [natToCol]
  split
  · simp
  · simp

theorem natToCol_valid (n : Nat) : ∀ c ∈ natToCol n, validUpper c := by
  induction n using Nat.strong_induction_on with
  | _ n ih =>
    rw [natToCol]
    split
    · intro c hc
      rw [List.mem_singleton] at hc
      subst hc
      exact letterOf_bounds n (by omega)
    · intro c hc
      rw [List.mem_append] at hc
      rcases hc with hc | hc
      · have hlt : n / 26 - 1 < n := by
          have h2 : n / 26 ≤ n := Nat.div_le_self n 26
          omega
        exact ih (n / 26 - 1) hlt c hc
      · rw [List.mem_singleton] at hc
        subst hc
        exact letterOf_bounds (n % 26) (Nat.mod_lt n (by omega))

/-- Encoding then evaluating: `colVal1 (natToCol n) = n + 1`. -/
theorem colVal1_natToCol (n : Nat) : colVal1 (natToCol n) = n + 1 := by
  induction n using Nat.strong_induction_on with
  | _ n ih =>
    rw [natToCol]
    split
    · rename_i h
      have := letterOf_toNat n h
      simp [colVal1, colDigit]
      omega
    · rename_i h
      have hlt : n / 26 - 1 < n := by
        have h2 : n / 26 ≤ n := Nat.div_le_self n 26
        omega
      rw [colVal1_append, ih (n / 26 - 1) hlt]
      have hm := letterOf_toNat (n % 26) (Nat.mod_lt n (by omega))
      have hdm : colDigit (letterOf (n % 26)) = n % 26 + 1 := by unfold colDigit; omega
      rw [hdm]
      have hdiv : 26 * (n / 26) + n % 26 = n := Nat.div_add_mod n 26
      have h26 : 1 ≤ n / 26 := Nat.one_le_div_iff (by omega) |>.mpr (by omega)
      omega

/-- Evaluating then encoding gives back the string. -/
theorem natToCol_colVal1 (l : List Char) (hv : ∀ c ∈ l, validUpper c) (hne : l ≠ []) :
    natToCol (colVal1 l - 1) = l := by
  induction l using List.reverseRecOn with
  | nil => exact absurd rfl hne
  | append_singleton l' c ih =>
    have hvc : validUpper c := hv c (by simp)
    have hd1 : 1 ≤ colDigit c := by unfold validUpper at hvc; unfold colDigit; omega
    have hd26 : colDigit c ≤ 26 := by unfold validUpper at hvc; unfold colDigit; omega
    rcases eq_or_ne l' [] with h | h
    · subst h
      have hval : colVal1 ([] ++ [c]) = colDigit c := by
        rw [colVal1_append]; simp [colVal1]
      rw [hval, natToCol]
      have hlt : colDigit c - 1 < 26 := by omega
      rw [if_pos hlt]
      have : colDigit c - 1 = c.toNat - 65 := by unfold colDigit; omega
      rw [this, letterOf_of_validUpper c hvc]
      simp
    · have hv' : ∀ d ∈ l', validUpper d := fun d hd => hv d (by simp [hd])
      have hvp : 1 ≤ colVal1 l' :=
        colVal1_pos l' (fun d hd => (hv' d hd).1) h
      rw [colVal1_append]
      set v' := colVal1 l' with hv'def
      have hge : ¬(v' * 26 + colDigit c - 1 < 26) := by omega
      rw [natToCol, if_neg hge]
      have hdivq : (v' * 26 + colDigit c - 1) / 26 = v' := by omega
      have hdivr : (v' * 26 + colDigit c - 1) % 26 = colDigit c - 1 := by omega
      rw [hdivq, hdivr]
      have hc : colDigit c - 1 = c.toNat - 65 := by unfold colDigit; omega
      rw [hc, letterOf_of_validUpper c hvc, ih hv' h]

/-- Code-point characterization of the letter class. -/
theorem isLetterB_iff (c : Char) :
    isLetterB c = true ↔
      (65 ≤ c.toNat ∧ c.toNat ≤ 90) ∨ (97 ≤ c.toNat ∧ c.toNat ≤ 122) := by
  unfold isLetterB
  rw [decide_eq_true_eq]
  rw [charLe_iff 'A' c, charLe_iff c 'Z', charLe_iff 'a' c, charLe_iff c 'z']
  exact Iff.rfl

/-- Upper-casing fixes characters that are already upper-case letters. -/
theorem upChar_of_validUpper (c : Char) (h : validUpper c) : upChar c = c := by
  obtain ⟨h1, h2⟩ := h
  unfold upChar
  rw [if_neg]
  intro hcon
  obtain ⟨hl, _⟩ := hcon
  rw [charLe_iff 'a' c] at hl
  have e97 : Char.toNat 'a' = 97 := rfl
  omega

/-- Upper-casing a letter yields an upper-case letter. -/
theorem upChar_validUpper (c : Char) (h : isLetterB c = true) : validUpper (upChar c) := by
  rw [isLetterB_iff] at h
  unfold upChar
  split
  · rename_i hlow
    obtain ⟨h1, h2⟩ := hlow
    rw [charLe_iff 'a' c] at h1
    rw [charLe_iff c 'z'] at h2
    have e97 : Char.toNat 'a' = 97 := rfl
    have e122 : Char.toNat 'z' = 122 := rfl
    unfold validUpper
    rw [charToNat_ofNat (c.toNat - 32) (by omega)]
    omega
  · rename_i hnot
    rcases h with h | h
    · exact h
    · exfalso
      apply hnot
      constructor
      · rw [charLe_iff 'a' c]
        have e97 : Char.toNat 'a' = 97 := rfl
        omega
      · rw [charLe_iff c 'z']
        have e122 : Char.toNat 'z' = 122 := rfl
        omega

/-- Upper-casing preserves letterhood. -/
theorem isLetterB_upChar (c : Char) (h : isLetterB c = true) : isLetterB (upChar c) = true := by
  have := upChar_validUpper c h
  rw [isLetterB_iff]
  exact Or.inl this

/-- Upper-case mapping is the identity on all-upper strings. -/
theorem map_upChar_of_validUpper (l : List Char) (h : ∀ c ∈ l, validUpper c) :
    l.map upChar = l := by
  induction l with
  | nil => rfl
  | cons c t ih =>
    rw [List.map_cons, upChar_of_validUpper c (h c (List.mem_cons_self c t)),
      ih fun d hd => h d (List.mem_cons_of_mem c hd)]

/-- The valid column-letter strings: non-empty runs of upper-case letters
(the case-canonical representatives). -/
def ColStr := {l : List Char // l ≠ [] ∧ ∀ c ∈ l, validUpper c}

/-- The zero-based index of a valid column string. -/
def colIdx (s : ColStr) : Nat := colVal1 s.1 - 1

/-- Decoder of `colIdx`, with validity proofs attached. -/
def natToColS (n : Nat) : ColStr := ⟨natToCol n, natToCol_ne_nil n, natToCol_valid n⟩

/-- The column-letter value map is a bijection onto the naturals. -/
theorem colIdx_bijective : Function.Bijective colIdx := by
  rw [Function.bijective_iff_has_inverse]
  refine ⟨natToColS, ?_, ?_⟩
  · intro s
    apply Subtype.ext
    exact natToCol_colVal1 s.1 s.2.2 s.2.1
  · intro n
    show colVal1 (natToCol n) - 1 = n
    rw [colVal1_natToCol]
    omega

/-- The integer fold of the conversion computes `colVal1` for strings of
characters with code points at least 65. -/
theorem foldl_int_natCast :
    ∀ l : List Char, (∀ c ∈ l, 65 ≤ c.toNat) → ∀ a : Nat,
      l.foldl (fun ix c => ix * 26 + ((c.toNat : Int) - 64)) (a : Int)
        = ((l.foldl (fun x c => x * 26 + colDigit c) a : Nat) : Int) := by
  intro l
  induction l with
  | nil => intro _ a; rfl
  | cons c t ih =>
    intro h a
    have hc : 65 ≤ c.toNat := h c (List.mem_cons_self c t)
    show List.foldl _ ((a : Int) * 26 + ((c.toNat : Int) - 64)) t = _
    have he : (a : Int) * 26 + ((c.toNat : Int) - 64) = ((a * 26 + colDigit c : Nat) : Int) := by
      unfold colDigit
      omega
    rw [he, List.foldl_cons]
    exact ih (fun d hd => h d (List.mem_cons_of_mem c hd)) (a * 26 + colDigit c)

/-- The fold of the conversion started at 0 is exactly `colVal1`. -/
theorem foldl_int_colVal1 (l : List Char) (h : ∀ c ∈ l, 65 ≤ c.toNat) :
    l.foldl (fun ix c => ix * 26 + ((c.toNat : Int) - 64)) 0 = ((colVal1 l : Nat) : Int) := by
  have h0 : (0 : Int) = ((0 : Nat) : Int) := rfl
  rw [h0, foldl_int_natCast l h 0]
  rfl

/-- On all-letter input the conversion computes the base-26 value of the
upper-cased string, minus one. -/
theorem getColumnIndexL_letters (l : List Char) (h1 : l ≠ [])
    (h2 : ∀ c ∈ l, isLetterB c = true) :
    getColumnIndexL l = (colVal1 (l.map upChar) : Int) - 1 := by
  unfold getColumnIndexL
  rw [List.filter_eq_self.mpr h2]
  have hup : ∀ c ∈ l.map upChar, 65 ≤ c.toNat := by
    intro c hc
    rw [List.mem_map] at hc
    obtain ⟨d, hd, rfl⟩ := hc
    exact (upChar_validUpper d (h2 d hd)).1
  have hmn : (l.map upChar).isEmpty = false := by
    cases l with
    | nil => exact absurd rfl h1
    | cons c t => rfl
  simp only [hmn, Bool.false_eq_true, if_false]
  rw [foldl_int_colVal1 (l.map upChar) hup]

/-- The conversion never goes below `-1`. -/
theorem getColumnIndexL_ge (l : List Char) : -1 ≤ getColumnIndexL l := by
  unfold getColumnIndexL
  split
  · omega
  · rename_i hne
    have hval : ∀ c ∈ (l.filter isLetterB).map upChar, 65 ≤ c.toNat := by
      intro c hc
      rw [List.mem_map] at hc
      obtain ⟨d, hd, rfl⟩ := hc
      exact (upChar_validUpper d (List.mem_filter.mp hd).2).1
    rw [foldl_int_colVal1 _ hval]
    omega

/-- The conversion yields `-1` exactly when the input has no letter. -/
theorem getColumnIndexL_eq_neg_one_iff (l : List Char) :
    getColumnIndexL l = -1 ↔ l.any isLetterB = false := by
  unfold getColumnIndexL
  have hval : ∀ c ∈ (l.filter isLetterB).map upChar, 65 ≤ c.toNat := by
    intro c hc
    rw [List.mem_map] at hc
    obtain ⟨d, hd, rfl⟩ := hc
    exact (upChar_validUpper d (List.mem_filter.mp hd).2).1
  split
  · rename_i hemp
    simp only [List.isEmpty_iff, List.map_eq_nil_iff] at hemp
    rw [List.filter_eq_nil_iff] at hemp
    simp only [true_iff]
    rw [List.any_eq_false]
    intro c hc
    exact fun hcon => hemp c hc (by rw [hcon])
  · rename_i hemp
    simp only [List.isEmpty_iff, List.map_eq_nil_iff] at hemp
    rw [foldl_int_colVal1 _ hval]
    have hpos : 1 ≤ colVal1 ((l.filter isLetterB).map upChar) := by
      apply colVal1_pos _ hval
      intro hcon
      rw [List.map_eq_nil_iff] at hcon
      exact hemp hcon
    constructor
    · intro hcon
      exfalso
      have : ((colVal1 ((l.filter isLetterB).map upChar) : Nat) : Int) = 0 := by omega
      omega
    · intro hcon
      exfalso
      rw [List.any_eq_false] at hcon
      apply hemp
      rw [List.filter_eq_nil_iff]
      intro c hc
      exact fun hl => (hcon c hc) hl

/-- Presence of a letter in an optional user value. -/
def hasLetterOpt : Option String → Bool
  | none => false
  | some s => s.data.any isLetterB

/-- Option-level version: the conversion yields `-1` exactly when the value
is absent or letter-free. -/
theorem getColumnIndex_eq_neg_one_iff (v : Option String) :
    getColumnIndex v = -1 ↔ hasLetterOpt v = false := by
  cases v with
  | none => simp [getColumnIndex, hasLetterOpt]
  | some s =>
    by_cases hs : s = ""
    · subst hs
      simp [getColumnIndex, hasLetterOpt]
    · simp only [getColumnIndex, hs, if_false, hasLetterOpt]
      exact getColumnIndexL_eq_neg_one_iff s.data

/-! ## Support lemmas: trimming, cleaning, parsing -/

theorem dropWhile_head_not {α : Type} (p : α → Bool) :
    ∀ (l : List α) (c : α), (l.dropWhile p).head? = some c → p c = false := by
  intro l
  induction l with
  | nil => intro c h; simp at h
  | cons a t ih =>
    intro c h
    by_cases hp : p a
    · rw [List.dropWhile_cons_of_pos hp] at h
      exact ih c h
    · rw [List.dropWhile_cons_of_neg hp] at h
      simp at h
      subst h
      exact Bool.eq_false_iff.mpr hp

theorem dropWhile_eq_self_of_head {α : Type} (p : α → Bool) (l : List α)
    (h : ∀ c, l.head? = some c → p c = false) : l.dropWhile p = l := by
  cases l with
  | nil => rfl
  | cons a t =>
    have := h a rfl
    rw [List.dropWhile_cons_of_neg (by rw [this]; exact Bool.false_ne_true)]

theorem suffix_getLastQ {α : Type} (s t : List α) (h : s <:+ t) (hne : s ≠ []) :
    t.getLast? = s.getLast? := by
  obtain ⟨u, rfl⟩ := h
  rw [List.getLast?_append]
  cases hl : s.getLast? with
  | none => exact absurd (List.getLast?_eq_none_iff.mp hl) hne
  | some x => rfl

/-- Heads of trimmed lists are not whitespace. -/
theorem trimL_head_not (l : List Char) (c : Char) (h : (trimL l).head? = some c) :
    isWs c = false := by
  unfold trimL at h
  rw [List.head?_reverse] at h
  by_cases hb : (l.dropWhile isWs).reverse.dropWhile isWs = []
  · rw [hb] at h
    simp at h
  · rw [← suffix_getLastQ _ _ (List.dropWhile_suffix isWs) hb] at h
    rw [List.getLast?_eq_head?_reverse, List.reverse_reverse] at h
    exact dropWhile_head_not isWs l c h

/-- Ends of trimmed lists are not whitespace. -/
theorem trimL_getLast_not (l : List Char) (c : Char) (h : (trimL l).getLast? = some c) :
    isWs c = false := by
  unfold trimL at h
  rw [List.getLast?_eq_head?_reverse, List.reverse_reverse] at h
  exact dropWhile_head_not isWs (l.dropWhile isWs).reverse c h

/-- JS `trim` is idempotent. -/
theorem trimL_idem (l : List Char) : trimL (trimL l) = trimL l := by
  have h1 : (trimL l).dropWhile isWs = trimL l :=
    dropWhile_eq_self_of_head isWs (trimL l) (trimL_head_not l)
  show (((trimL l).dropWhile isWs).reverse.dropWhile isWs).reverse = trimL l
  rw [h1]
  have h2 : (trimL l).reverse.dropWhile isWs = (trimL l).reverse := by
    apply dropWhile_eq_self_of_head
    intro c hc
    rw [List.head?_reverse] at hc
    exact trimL_getLast_not l c hc
  rw [h2, List.reverse_reverse]

/-- `trimS` is idempotent. -/
theorem trimS_idem (s : String) : trimS (trimS s) = trimS s := by
  show (⟨trimL (trimL s.data)⟩ : String) = ⟨trimL s.data⟩
  rw [trimL_idem]

/-- A `jsOr` with a non-empty default is non-empty. -/
theorem jsOr_ne_empty (a b : String) (hb : b ≠ "") : jsOr a b ≠ "" := by
  unfold jsOr
  split
  · exact hb
  · rename_i h
    exact h

/-! ## Support lemmas: the quantity parse -/

/-- Code-point characterization of the whitespace class. -/
theorem isWs_iff_toNat (c : Char) :
    isWs c = true ↔
      (c.toNat = 32 ∨ c.toNat = 9 ∨ c.toNat = 10 ∨ c.toNat = 13 ∨
        c.toNat = 11 ∨ c.toNat = 12) := by
  unfold isWs
  simp only [Bool.or_eq_true, decide_eq_true_eq]
  constructor
  · rintro (((((h | h) | h) | h) | h) | h) <;> (subst h; decide)
  · rintro (h | h | h | h | h | h)
    · rw [show c = ' ' from charToNat_inj c ' ' (by rw [h]; decide)]
      decide
    · rw [show c = '\t' from charToNat_inj c '\t' (by rw [h]; decide)]
      decide
    · rw [show c = '\n' from charToNat_inj c '\n' (by rw [h]; decide)]
      decide
    · rw [show c = '\r' from charToNat_inj c '\r' (by rw [h]; decide)]
      decide
    · rw [show c = '\x0b' from charToNat_inj c '\x0b' (by rw [h]; decide)]
      decide
    · rw [show c = '\x0c' from charToNat_inj c '\x0c' (by rw [h]; decide)]
      decide

/-- Bridge from the `UInt32` order to `toNat`. -/
theorem uint32Le_iff (a b : UInt32) : a ≤ b ↔ a.toNat ≤ b.toNat := by
  simp [UInt32.le_def, BitVec.le_def, UInt32.toNat]

/-- Code-point characterization of the digit class. -/
theorem isDigit_iff_toNat (c : Char) :
    c.isDigit = true ↔ 48 ≤ c.toNat ∧ c.toNat ≤ 57 := by
  unfold Char.isDigit
  simp only [Bool.and_eq_true, decide_eq_true_eq, ge_iff_le]
  rw [uint32Le_iff, uint32Le_iff]
  have e48 : (48 : UInt32).toNat = 48 := rfl
  have e57 : (57 : UInt32).toNat = 57 := rfl
  rw [e48, e57]
  exact Iff.rfl

/-- Digits and minus signs are not whitespace. -/
theorem digit_minus_not_ws (c : Char) (h : (c.isDigit || c = '-') = true) :
    isWs c = false := by
  rw [Bool.or_eq_true] at h
  rcases h with h | h
  · rw [isDigit_iff_toNat] at h
    by_cases hw : isWs c = true
    · rw [isWs_iff_toNat] at hw
      exfalso
      rcases hw with hw | hw | hw | hw | hw | hw <;> omega
    · exact Bool.not_eq_true (isWs c) |>.mp hw
  · rw [decide_eq_true_eq] at h
    subst h
    rfl

/-- A quantity-stripped string starting with a digit parses to that digit
run; starting with a lone or ill-followed minus it parses to `NaN`. -/
theorem jsParseInt_of_no_ws (t : List Char) (hws : ∀ c ∈ t, isWs c = false) :
    jsParseInt ⟨t⟩ =
      (if t.head? = some '-' then (digitsVal t.tail).map fun n => -(Int.ofNat n)
       else if t.head? = some '+' then (digitsVal t.tail).map fun n => Int.ofNat n
       else (digitsVal t).map fun n => Int.ofNat n) := by
  have hd : t.dropWhile isWs = t := by
    apply dropWhile_eq_self_of_head
    intro c hc
    cases t with
    | nil => simp at hc
    | cons a l =>
      simp only [List.head?_cons, Option.some.injEq] at hc
      subst hc
      exact hws a (List.mem_cons_self a l)
  have hdata : (⟨t⟩ : String).data = t := rfl
  simp only [jsParseInt, hdata, hd]

/-- String equality is equality of the character data. -/
theorem string_eq_iff (s t : String) : s = t ↔ s.data = t.data := by
  constructor
  · intro h
    rw [h]
  · intro h
    cases s with
    | mk a =>
      cases t with
      | mk b => exact congrArg String.mk h

/-- A quantity-stripped value that parses to `NaN`: it starts with a minus
sign that is not followed by a digit. -/
def badMinus (s : String) : Bool :=
  decide (s.data.head? = some '-') && (s.data.tail.head?).elim true fun c => !c.isDigit

/-- On the output of the quantity strip (digits and minus signs only), the
`'0'`-defaulted `parseInt` is `NaN` exactly on a leading minus sign not
followed by a digit. -/
theorem jsParseInt_strip_none_iff (s : String) :
    jsParseInt (jsOr (stripDigitsMinus s) "0") = none ↔
      badMinus (stripDigitsMinus s) = true := by
  have hmem : ∀ c ∈ (stripDigitsMinus s).data, (c.isDigit || c = '-') = true := by
    intro c hc
    exact (List.mem_filter.mp hc).2
  have hws : ∀ c ∈ (stripDigitsMinus s).data, isWs c = false :=
    fun c hc => digit_minus_not_ws c (hmem c hc)
  have heta : stripDigitsMinus s = ⟨(stripDigitsMinus s).data⟩ := rfl
  cases hT : (stripDigitsMinus s).data with
  | nil =>
    have hempty : stripDigitsMinus s = "" := by
      rw [string_eq_iff]
      exact hT
    rw [hempty]
    have h0 : jsOr "" "0" = "0" := rfl
    rw [h0]
    constructor
    · intro hcon
      exact absurd hcon (by decide)
    · intro hcon
      exact absurd hcon (by decide)
  | cons c rest =>
    have hne : jsOr (stripDigitsMinus s) "0" = stripDigitsMinus s := by
      unfold jsOr
      rw [if_neg]
      rw [string_eq_iff, hT]
      exact fun hcon => List.noConfusion hcon
    rw [hne, heta, hT]
    rw [jsParseInt_of_no_ws (c :: rest) (by rw [← hT]; exact hws)]
    unfold badMinus
    dsimp only
    by_cases hc : c = '-'
    · subst hc
      simp only [List.head?_cons]
      rw [if_pos trivial]
      cases rest with
      | nil => decide
      | cons d r =>
        simp only [List.tail_cons, List.head?_cons, Option.elim_some, Option.map_eq_none',
          decide_eq_true_eq, Option.some.injEq, decide_True, Bool.true_and]
        unfold digitsVal
        by_cases hdig : d.isDigit = true
        · rw [List.takeWhile_cons_of_pos hdig]
          simp [hdig]
        · have hdig' : d.isDigit = false := by
            rw [Bool.not_eq_true] at hdig
            exact hdig
          rw [List.takeWhile_cons_of_neg hdig]
          simp [hdig']
    · have hcd : c.isDigit = true := by
        have := hmem c (by rw [hT]; exact List.mem_cons_self c rest)
        rw [Bool.or_eq_true] at this
        rcases this with h | h
        · exact h
        · rw [decide_eq_true_eq] at h
          exact absurd h hc
      have hcp : c ≠ '+' := by
        intro hcon
        subst hcon
        exact absurd hcd (by decide)
      simp only [List.head?_cons]
      rw [if_neg (fun hcon => hc (Option.some.inj hcon)),
        if_neg (fun hcon => hcp (Option.some.inj hcon))]
      have hno : digitsVal (c :: rest) = some (natVal ((c :: rest).takeWhile Char.isDigit)) := by
        unfold digitsVal
        rw [if_neg]
        intro hcon
        rw [List.takeWhile_cons_of_pos hcd] at hcon
        simp at hcon
      rw [hno]
      simp only [Option.map_some']
      constructor
      · intro hcon
        exact absurd hcon (by simp)
      · intro hcon
        rw [Bool.and_eq_true] at hcon
        have := Option.some.inj (decide_eq_true_eq.mp hcon.1)
        exact absurd this hc

/-! ## Support lemmas: the record builder -/

theorem hashStep_eq (h : Int) (c : Nat) : hashStep h c = toInt32 (31 * h + (c : Int)) := by
  unfold hashStep toInt32
  omega

theorem buildItem_some_iff (r : ResolvedCols) (cols : List String) (item : InventoryItem) :
    buildItem r cols = some item ↔
      ∃ pc, priceCellOpt r cols = some pc ∧ mkItem r cols pc = item := by
  unfold buildItem
  exact Option.map_eq_some'

theorem mkItem_sku (r : ResolvedCols) (cols : List String) (pc : String) :
    (mkItem r cols pc).sku = getValF cols r.sku := rfl

theorem mkItem_partNumber (r : ResolvedCols) (cols : List String) (pc : String) :
    (mkItem r cols pc).partNumber = getValF cols r.partNum := rfl

theorem mkItem_name (r : ResolvedCols) (cols : List String) (pc : String) :
    (mkItem r cols pc).name = cleanName (getValF cols r.details) := rfl

theorem mkItem_category (r : ResolvedCols) (cols : List String) (pc : String) :
    (mkItem r cols pc).category = jsOr (getValF cols r.model) "Uncategorized" := rfl

theorem mkItem_quantity (r : ResolvedCols) (cols : List String) (pc : String) :
    (mkItem r cols pc).quantity =
      jsParseInt (jsOr (stripDigitsMinus (getValF cols r.qty)) "0") := rfl

theorem mkItem_status (r : ResolvedCols) (cols : List String) (pc : String) :
    (mkItem r cols pc).status = statusOf (mkItem r cols pc).quantity := rfl

theorem mkItem_etas (r : ResolvedCols) (cols : List String) (pc : String) :
    (mkItem r cols pc).etas =
      (if (((etaIdxList r).map (getValF cols)).filter
            (fun v => v ≠ "" && lowerS v ≠ "n/a")).length > 0 then
        some (((etaIdxList r).map (getValF cols)).filter
          fun v => v ≠ "" && lowerS v ≠ "n/a")
      else none) := rfl

theorem mkItem_eta (r : ResolvedCols) (cols : List String) (pc : String) :
    (mkItem r cols pc).eta =
      joinSep ", " (((etaIdxList r).map (getValF cols)).filter
        fun v => v ≠ "" && lowerS v ≠ "n/a") := rfl

theorem mkItem_id (r : ResolvedCols) (cols : List String) (pc : String) :
    (mkItem r cols pc).id =
      (if jsOr (getValF cols r.sku) (getValF cols r.partNum) ≠ "" then
        jsOr (getValF cols r.sku) (getValF cols r.partNum)
      else if (⟨(cleanName (getValF cols r.details)).data.filter fun c => !(isWs c)⟩ : String) ≠ ""
          then
        (⟨(cleanName (getValF cols r.details)).data.filter fun c => !(isWs c)⟩ : String)
      else
        "GEN-" ++ toString (jsHashString
          (jsOr (getValF cols r.model) "Uncategorized" ++ "-" ++ getValF cols r.loc)).natAbs) :=
  rfl

/-- The cleanup pipeline ends in a trim, so cleaned names are trim-fixed. -/
theorem trimS_cleanName (s : String) : trimS (cleanName s) = cleanName s := by
  unfold cleanName
  show (⟨trimL (trimL (collapseWs (replaceTag tagNewArrive
    (replaceTag tagFlowForming s.data))))⟩ : String) = _
  rw [trimL_idem]

/-- Appending to the non-empty literal `GEN-` never gives the empty string. -/
theorem gen_append_ne (s : String) : ("GEN-" ++ s) ≠ "" := by
  intro hcon
  rw [string_eq_iff, String.data_append] at hcon
  simp at hcon

/-- Every successfully built record has a non-empty id, a trim-fixed name
and a non-empty category. -/
theorem buildItem_facts (r : ResolvedCols) (cols : List String) (item : InventoryItem)
    (h : buildItem r cols = some item) :
    item.id ≠ "" ∧ trimS item.name = item.name ∧ item.category ≠ "" := by
  rw [buildItem_some_iff] at h
  obtain ⟨pc, hpc, rfl⟩ := h
  refine ⟨?_, ?_, ?_⟩
  · rw [mkItem_id]
    split
    · rename_i hne
      exact hne
    · split
      · rename_i hne
        exact hne
      · exact gen_append_ne _
  · rw [mkItem_name]
    exact trimS_cleanName _
  · rw [mkItem_category]
    exact jsOr_ne_empty _ _ (by decide)

/-- Membership in the result of an `Option`-valued `mapM` comes from some
element of the source list. -/
theorem mapM_option_mem {α β : Type} (f : α → Option β) :
    ∀ (l : List α) (ys : List β), l.mapM f = some ys → ∀ y ∈ ys, ∃ x ∈ l, f x = some y := by
  intro l
  induction l with
  | nil =>
    intro ys h y hy
    rw [List.mapM_nil] at h
    have : ([] : List β) = ys := Option.some.inj h
    subst this
    simp at hy
  | cons a t ih =>
    intro ys h y hy
    rw [List.mapM_cons] at h
    cases hfa : f a with
    | none =>
      rw [hfa] at h
      simp at h
    | some b =>
      rw [hfa] at h
      cases hmt : t.mapM f with
      | none =>
        rw [hmt] at h
        simp at h
      | some bs =>
        rw [hmt] at h
        have hys : b :: bs = ys := Option.some.inj h
        subst hys
        rcases List.mem_cons.mp hy with hy | hy
        · subst hy
          exact ⟨a, List.mem_cons_self a t, hfa⟩
        · obtain ⟨x, hx, hfx⟩ := ih bs hmt y hy
          exact ⟨x, List.mem_cons_of_mem a hx, hfx⟩

/-! ## Support lemmas: cleaning invariance of the column conversion -/

theorem isLetterB_filter_map (l : List Char) :
    ((l.filter isLetterB).map upChar).filter isLetterB = (l.filter isLetterB).map upChar := by
  rw [List.filter_eq_self]
  intro c hc
  rw [List.mem_map] at hc
  obtain ⟨d, hd, rfl⟩ := hc
  exact isLetterB_upChar d (List.mem_filter.mp hd).2

theorem upChar_idem_map (l : List Char) :
    ((l.filter isLetterB).map upChar).map upChar = (l.filter isLetterB).map upChar := by
  rw [List.map_map]
  apply List.map_congr_left
  intro d hd
  show upChar (upChar d) = upChar d
  exact upChar_of_validUpper _ (upChar_validUpper d (List.mem_filter.mp hd).2)

/-- The conversion only looks at the cleaned (letters-only, upper-cased)
form of its input. -/
theorem getColumnIndexL_clean (l : List Char) :
    getColumnIndexL ((l.filter isLetterB).map upChar) = getColumnIndexL l := by
  unfold getColumnIndexL
  rw [isLetterB_filter_map, upChar_idem_map]

/-- The empty-string guard is redundant over the list-level conversion. -/
theorem getColumnIndex_some (s : String) : getColumnIndex (some s) = getColumnIndexL s.data := by
  show (if s = "" then -1 else getColumnIndexL s.data) = getColumnIndexL s.data
  by_cases hs : s = ""
  · rw [if_pos hs]
    subst hs
    rfl
  · rw [if_neg hs]

/-- Spec-side resolver, following the claim's words: the first tier applies
exactly when the user value is a non-empty letters-only column string
(`"A"`, `"AA"`, …); otherwise the keyword scan, otherwise the fallback. -/
def resolveIndexSpec (userVal : Option String) (keywords : List String)
    (fallbackIdx : Int) (headers : List String) : Int :=
  let isColLetter : Bool :=
    match userVal with
    | none => false
    | some s => s ≠ "" && s.data.all isLetterB
  if isColLetter then getColumnIndex userVal
  else if findKeywordIdx keywords headers ≠ -1 then findKeywordIdx keywords headers
  else fallbackIdx

/-- Every record in a successful parse result was produced by the row
builder and passed the row filter. -/
theorem parseInventory_mem (text : String) (m : ColumnMapping) (items : List InventoryItem)
    (it : InventoryItem) (h : parseInventory text m = some items) (hit : it ∈ items) :
    (∃ r cols, buildItem r cols = some it) ∧ keepItem it = true := by
  unfold parseInventory at h
  by_cases hl : (parseInvLines text).length < 2
  · rw [if_pos hl] at h
    have hnil : ([] : List InventoryItem) = items := Option.some.inj h
    subst hnil
    simp at hit
  · rw [if_neg hl] at h
    cases hm : builtRows text m with
    | none =>
      rw [hm] at h
      exact absurd h (by simp)
    | some built =>
      rw [hm] at h
      have hfi : built.filter keepItem = items := Option.some.inj h
      subst hfi
      obtain ⟨hmemb, hkeep⟩ := List.mem_filter.mp hit
      obtain ⟨line, _, hbuild⟩ := mapM_option_mem _ _ _ hm it hmemb
      exact ⟨⟨resolveAll m (headersOf text), parseCSVLine line, hbuild⟩, hkeep⟩

/-! ## Support lemmas: lower-casing and trimming commute -/

/-- Characters with code points at least 33 are not whitespace. -/
theorem isWs_false_of_ge (c : Char) (h : 33 ≤ c.toNat) : isWs c = false := by
  have hnot : ¬(isWs c = true) := by
    rw [isWs_iff_toNat]
    omega
  exact Bool.not_eq_true (isWs c) |>.mp hnot

/-- Lower-casing does not change whether a character is whitespace. -/
theorem isWs_loChar (c : Char) : isWs (loChar c) = isWs c := by
  unfold loChar
  split
  · rename_i hup
    obtain ⟨h1, h2⟩ := hup
    rw [charLe_iff 'A' c] at h1
    rw [charLe_iff c 'Z'] at h2
    have e65 : Char.toNat 'A' = 65 := rfl
    have e90 : Char.toNat 'Z' = 90 := rfl
    have hofn : (Char.ofNat (c.toNat + 32)).toNat = c.toNat + 32 :=
      charToNat_ofNat _ (by omega)
    rw [isWs_false_of_ge _ (by omega), isWs_false_of_ge _ (by omega)]
  · rfl

/-- Trimming commutes with lower-casing on character lists. -/
theorem trimL_map_loChar (l : List Char) : trimL (l.map loChar) = (trimL l).map loChar := by
  unfold trimL
  have hcomp : isWs ∘ loChar = isWs := funext isWs_loChar
  rw [List.dropWhile_map, hcomp, ← List.map_reverse, List.dropWhile_map, hcomp,
    List.map_reverse]

/-- Trimming commutes with lower-casing. -/
theorem trimS_lowerS (s : String) : trimS (lowerS s) = lowerS (trimS s) := by
  show (⟨trimL (s.data.map loChar)⟩ : String) = ⟨(trimL s.data).map loChar⟩
  rw [trimL_map_loChar]

/-! ## The claims -/

/-- The six filter conditions exactly as claim C1 states them, with the
claim's `quantity <= 0` read as the JS comparison (false on `NaN`). -/
def rowCondsC1 (it : InventoryItem) : Bool :=
  decide (it.id ≠ "") &&
  !(decide (it.name = "") && jsLe it.quantity 0 && decide (it.category = "Uncategorized")) &&
  !(containsS (lowerS it.name) "fitment") &&
  !(containsS (lowerS it.partNumber) "(highoffset)" ||
    containsS (lowerS it.id) "(highoffset)") &&
  !(headerKeywords.contains (trimS (lowerS it.id)) ||
    headerKeywords.contains (trimS (lowerS it.name))) &&
  !(containsS (lowerS it.name) "description" && jsEqZ it.quantity)

/-- Columns resolved for the plain header `sku,model,description,qty`
(keyword auto-detection, no user mapping). -/
def rA : ResolvedCols := resolveAll emptyMapping ["sku", "model", "description", "qty"]

set_option maxHeartbeats 2000000 in
/-- C1 counterexample: the raw row `X,,,-` (a SKU, no name, no category and
the quantity cell `-`, which parses to `NaN`) builds a record satisfying all
six conditions of the claim as stated — `NaN <= 0` is false, so condition
(2) holds — yet the filter drops the record: the code tests
`!(quantity > 0)`, not `quantity <= 0`.  The end-to-end parse confirms the
record is missing from the output. -/
theorem keepItem_claim_counterexample :
    ((buildItem rA (parseCSVLine "X,,,-")).map fun it => (rowCondsC1 it, keepItem it))
        = some (true, false) ∧
      parseInventory "sku,model,description,qty\nX,,,-" emptyMapping = some [] := by
  constructor
  · decide
  · decide

set_option maxHeartbeats 2000000 in
/-- C1 (amended): a built record is kept exactly when all six filter
conditions hold; condition (2) reads `NOT (name empty AND quantity > 0
false AND category Uncategorized)` — which differs from the claim's
`quantity <= 0` only when quantity is `NaN`.  The remaining five conditions
are as the claim states them. -/
theorem keepItem_iff_conditions (r : ResolvedCols) (cols : List String) (item : InventoryItem)
    (h : buildItem r cols = some item) :
    keepItem item = true ↔
      (item.id ≠ "" ∧
       ¬(item.name = "" ∧ ¬(jsGt item.quantity 0 = true) ∧ item.category = "Uncategorized") ∧
       ¬(containsS (lowerS item.name) "fitment" = true) ∧
       ¬(containsS (lowerS item.partNumber) "(highoffset)" = true ∨
         containsS (lowerS item.id) "(highoffset)" = true) ∧
       ¬(headerKeywords.contains (trimS (lowerS item.id)) = true ∨
         headerKeywords.contains (trimS (lowerS item.name)) = true) ∧
       ¬(containsS (lowerS item.name) "description" = true ∧
         jsEqZ item.quantity = true)) := by
  obtain ⟨hid, htrim, hcat⟩ := buildItem_facts r cols item h
  have e1 : (item.name ≠ "" ∧ trimS item.name ≠ "") ↔ item.name ≠ "" := by
    rw [htrim]
    tauto
  have e3 : (item.category ≠ "" ∧ item.category ≠ "Uncategorized") ↔
      item.category ≠ "Uncategorized" := ⟨fun hx => hx.2, fun hx => ⟨hcat, hx⟩⟩
  have e4 : ((item.partNumber ≠ "" ∧ containsS (lowerS item.partNumber) "(highoffset)" = true)
      ∨ containsS (lowerS item.id) "(highoffset)" = true) ↔
      (containsS (lowerS item.partNumber) "(highoffset)" = true ∨
       containsS (lowerS item.id) "(highoffset)" = true) := by
    by_cases hp : item.partNumber = ""
    · have hz : containsS (lowerS item.partNumber) "(highoffset)" = false := by
        rw [hp]
        decide
      rw [hz]
      simp
    · simp [hp]
  have hdesc : containsS (trimS (lowerS item.name)) "description"
      = containsS (lowerS item.name) "description" := by
    rw [trimS_lowerS, htrim]
  unfold keepItem
  rw [if_neg hid]
  simp only [e1, e3, e4, hdesc]
  split_ifs with h2 h3 h4 h5 h6 <;>
    simp only [Bool.false_eq_true, false_iff, eq_self_iff_true, true_iff]
  · intro hR
    exact hR.2.1 ⟨not_not.mp h2.1, h2.2.1, not_not.mp h2.2.2⟩
  · intro hR
    exact hR.2.2.1 h3
  · intro hR
    exact hR.2.2.2.1 h4
  · intro hR
    exact hR.2.2.2.2.1 h5
  · intro hR
    exact hR.2.2.2.2.2 h6
  · exact ⟨hid, fun hx => h2 ⟨fun hne => hne hx.1, hx.2.1, fun hne => hne hx.2.2⟩,
      h3, h4, h5, h6⟩

/-- C1 witness: the claim's own example — a record named "Audi Fitment
Chart" with quantity 12 fails the fitment condition, and by the amended
equivalence the filter drops it in spite of its positive quantity. -/
theorem keepItem_iff_conditions_witness :
    ((buildItem rA (parseCSVLine "A7,BMW,Audi Fitment Chart,12")).map keepItem)
      = some false := by
  cases hEq : buildItem rA (parseCSVLine "A7,BMW,Audi Fitment Chart,12") with
  | none => exact absurd hEq (by decide)
  | some item =>
    have hiff := keepItem_iff_conditions rA (parseCSVLine "A7,BMW,Audi Fitment Chart,12")
      item hEq
    have hname : item.name = "Audi Fitment Chart" := by
      obtain ⟨pc, hpc, hmk⟩ := (buildItem_some_iff _ _ _).mp hEq
      rw [← hmk, mkItem_name]
      decide
    have hkeep : keepItem item = false := by
      rw [← Bool.not_eq_true, hiff]
      intro hconds
      exact hconds.2.2.1 (by rw [hname]; decide)
    rw [Option.map_some', hkeep]

/-- The status chain on an actual number. -/
theorem statusOf_some (v : Int) :
    statusOf (some v) =
      (if v ≤ 0 then "Out of Stock" else if v < 8 then "Low Stock" else "In Stock") := by
  unfold statusOf
  simp [jsLe, jsLt]

/-- The claim's threshold rule as stated, as a Boolean record check:
each status value holds exactly under its quantity comparison, with JS
comparison semantics (`NaN` compares false). -/
def statusClaimB (it : InventoryItem) : Bool :=
  (decide (it.status = "Out of Stock") == jsLe it.quantity 0) &&
  (decide (it.status = "Low Stock") == (jsGt it.quantity 0 && jsLt it.quantity 8)) &&
  (decide (it.status = "In Stock") == jsGe it.quantity 8)

set_option maxHeartbeats 2000000 in
/-- C2 counterexample: the quantity cell `-` parses to `NaN`, the record
survives the filter, and its status is "In Stock" although `NaN >= 8` is
false — the threshold rule as claimed does not cover it. -/
theorem status_claim_counterexample :
    (parseInventory "sku,model,description,qty\nX1,BMW,Widget,-" emptyMapping).map
        (fun items => items.map fun it => (it.quantity, it.status, statusClaimB it))
      = some [(none, "In Stock", false)] := by
  decide

set_option maxHeartbeats 1000000 in
/-- C2 (amended): for every record in the output of `parseInventory`,
status is the pure function `statusOf` of quantity; on numeric quantities
it follows the claimed thresholds (≤ 0 Out of Stock, 1–7 Low Stock, ≥ 8 In
Stock), and a `NaN` quantity (from a malformed cell) falls through to
"In Stock". -/
theorem status_threshold_rule (text : String) (m : ColumnMapping)
    (items : List InventoryItem) (it : InventoryItem)
    (h : parseInventory text m = some items) (hit : it ∈ items) :
    it.status = statusOf it.quantity ∧
    (∀ v : Int, it.quantity = some v →
      ((v ≤ 0 → it.status = "Out of Stock") ∧
       (0 < v → v < 8 → it.status = "Low Stock") ∧
       (8 ≤ v → it.status = "In Stock"))) ∧
    (it.quantity = none → it.status = "In Stock") := by
  obtain ⟨⟨r, cols, hbuild⟩, _⟩ := parseInventory_mem text m items it h hit
  rw [buildItem_some_iff] at hbuild
  obtain ⟨pc, hpc, hmk⟩ := hbuild
  subst hmk
  refine ⟨mkItem_status r cols pc, ?_, ?_⟩
  · intro v hv
    rw [mkItem_status, hv, statusOf_some]
    refine ⟨?_, ?_, ?_⟩
    · intro h1
      rw [if_pos h1]
    · intro h1 h2
      rw [if_neg (by omega), if_pos h2]
    · intro h1
      rw [if_neg (by omega), if_neg (by omega)]
  · intro hv
    rw [mkItem_status, hv]
    rfl

/-- The single record of the claim's Scenario A parse. -/
def wheelItem : InventoryItem :=
  ⟨"X1", "X1", "", "Wheel", some 5, "Unassigned", "BMW", some 0, "", "Low Stock", "",
   none, none, none, none⟩

set_option maxHeartbeats 2000000 in
/-- C2 witness: in the Scenario A parse the record with quantity 5 gets
status "Low Stock" by the threshold rule. -/
theorem status_threshold_rule_witness :
    wheelItem.status = "Low Stock" ∧ wheelItem.quantity = some 5 := by
  have hp : parseInventory "sku,model,description,qty\nX1,BMW,Wheel,5" emptyMapping
      = some [wheelItem] := by decide
  have hmem : wheelItem ∈ [wheelItem] := List.mem_singleton.mpr rfl
  have hth := status_threshold_rule _ emptyMapping [wheelItem] wheelItem hp hmem
  exact ⟨(hth.2.1 5 rfl).2.1 (by omega) (by omega), rfl⟩

/-- C3 counterexample: for the user value "A1" — not a letters-only column
string — the claim's chain falls through to the keyword tier (index 1 of
the headers `x, qty` for keyword `qty`), but the code strips the `1`,
reads "A" and returns 0 unconditionally. -/
theorem resolveIndex_claim_counterexample :
    resolveIndex (some "A1") ["qty"] 5 ["x", "qty"] = 0 ∧
    resolveIndexSpec (some "A1") ["qty"] 5 ["x", "qty"] = 1 ∧ (0 : Int) ≠ 1 := by
  refine ⟨by decide, by decide, by decide⟩

/-- C3 (amended): the three-tier chain, with the first tier firing exactly
when the user value contains at least one ASCII letter (its other
characters are ignored); then the first keyword-matching header, then the
fallback. -/
theorem resolveIndex_three_tier (v : Option String) (kws : List String) (fb : Int)
    (hs : List String) :
    (hasLetterOpt v = true → resolveIndex v kws fb hs = getColumnIndex v) ∧
    (hasLetterOpt v = false →
      resolveIndex v kws fb hs =
        (match hs.findIdx? (fun h => kws.any fun k => containsS h k) with
         | some i => (i : Int)
         | none => fb)) := by
  constructor
  · intro hl
    unfold resolveIndex
    rw [if_pos]
    have hne : getColumnIndex v ≠ -1 := by
      rw [Ne, getColumnIndex_eq_neg_one_iff, hl]
      simp
    have hge : -1 ≤ getColumnIndex v := by
      cases v with
      | none => exact absurd hl (by decide)
      | some s =>
        rw [getColumnIndex_some]
        exact getColumnIndexL_ge s.data
    omega
  · intro hl
    unfold resolveIndex
    have hneg : getColumnIndex v = -1 := by
      rw [getColumnIndex_eq_neg_one_iff]
      exact hl
    rw [hneg, if_neg (by omega : ¬((-1 : Int) > -1))]
    unfold findKeywordIdx
    cases hfi : hs.findIdx? fun h => kws.any fun k => containsS h k with
    | none =>
      rw [if_neg]
      intro hcon
      exact hcon rfl
    | some i =>
      rw [if_pos (show (i : Int) ≠ -1 by omega)]

/-- C3 witness: a letters-only value "B" resolves to column 1 by tier one;
a letter-free value "7" falls to the keyword tier (header index 1); an
absent value with no keyword match falls to the fallback 7. -/
theorem resolveIndex_three_tier_witness :
    resolveIndex (some "B") ["qty"] 5 ["x", "qty"] = 1 ∧
    resolveIndex (some "7") ["qty"] 5 ["x", "qty"] = 1 ∧
    resolveIndex none ["qty"] 7 [] = 7 := by
  refine ⟨?_, ?_, ?_⟩
  · have := (resolveIndex_three_tier (some "B") ["qty"] 5 ["x", "qty"]).1 (by decide)
    rw [this]
    decide
  · have := (resolveIndex_three_tier (some "7") ["qty"] 5 ["x", "qty"]).2 (by decide)
    rw [this]
    decide
  · have := (resolveIndex_three_tier none ["qty"] 7 []).2 (by decide)
    rw [this]
    decide

/-- C4: on every valid column-letter string (non-empty, letters of either
case) the conversion returns the base-26 value (A=1) of the upper-cased
string minus one; restricted to the case-canonical valid strings `ColStr`
this map (`colIdx`) is a bijection onto the naturals, with A mapping to 0,
Z to 25 and AA to 26. -/
theorem getColumnIndex_bijection :
    (∀ l : List Char, l ≠ [] → (∀ c ∈ l, isLetterB c = true) →
      getColumnIndex (some ⟨l⟩) = (colVal1 (l.map upChar) : Int) - 1) ∧
    (∀ s : ColStr, getColumnIndex (some ⟨s.1⟩) = ((colIdx s : Nat) : Int)) ∧
    Function.Bijective colIdx ∧
    getColumnIndex (some "A") = 0 ∧ getColumnIndex (some "Z") = 25 ∧
    getColumnIndex (some "AA") = 26 := by
  have hpart1 : ∀ l : List Char, l ≠ [] → (∀ c ∈ l, isLetterB c = true) →
      getColumnIndex (some ⟨l⟩) = (colVal1 (l.map upChar) : Int) - 1 := by
    intro l h1 h2
    rw [getColumnIndex_some]
    exact getColumnIndexL_letters l h1 h2
  refine ⟨hpart1, ?_, colIdx_bijective, by decide, by decide, by decide⟩
  intro s
  obtain ⟨hne, hval⟩ := s.2
  have hlet : ∀ c ∈ s.1, isLetterB c = true := by
    intro c hc
    rw [isLetterB_iff]
    exact Or.inl (hval c hc)
  have heq := hpart1 s.1 hne hlet
  rw [heq, map_upChar_of_validUpper s.1 hval]
  have hpos : 1 ≤ colVal1 s.1 := colVal1_pos s.1 (fun c hc => (hval c hc).1) hne
  unfold colIdx
  omega

/-- C4 witness: the conversion at the concrete string AA: base-26 value 27,
zero-based index 26. -/
theorem getColumnIndex_bijection_witness :
    getColumnIndex (some ⟨['A', 'A']⟩) = (colVal1 (['A', 'A'].map upChar) : Int) - 1 ∧
    getColumnIndex (some "AA") = 26 :=
  ⟨getColumnIndex_bijection.1 ['A', 'A'] (by decide) (by decide),
   getColumnIndex_bijection.2.2.2.2.2⟩

/-- C5: when SKU, part number and cleaned name are all empty, the id is
`GEN-` followed by the decimal absolute value of the rolling 32-bit hash of
`category ++ "-" ++ location-cell`; each hash step equals
`wrap32 (31*h + charCode)`; and every built record has a non-empty id. -/
theorem id_fallback_hash (r : ResolvedCols) (cols : List String) (item : InventoryItem)
    (h : buildItem r cols = some item)
    (hsku : getValF cols r.sku = "") (hpn : getValF cols r.partNum = "")
    (hname : cleanName (getValF cols r.details) = "") :
    item.id = "GEN-" ++
      toString (jsHashString (item.category ++ "-" ++ getValF cols r.loc)).natAbs ∧
    (∀ h0 : Int, ∀ c : Nat, hashStep h0 c = toInt32 (31 * h0 + (c : Int))) ∧
    (∀ r2 cols2 it2, buildItem r2 cols2 = some it2 → it2.id ≠ "") := by
  refine ⟨?_, fun h0 c => hashStep_eq h0 c,
    fun r2 cols2 it2 hb => (buildItem_facts r2 cols2 it2 hb).1⟩
  rw [buildItem_some_iff] at h
  obtain ⟨pc, hpc, rfl⟩ := h
  rw [mkItem_id, mkItem_category, hsku, hpn, hname]
  rw [show jsOr "" "" = "" from rfl]
  rw [if_neg (by simp)]
  rw [show (⟨("" : String).data.filter fun c => !(isWs c)⟩ : String) = "" from rfl]
  rw [if_neg (by simp)]

/-- A resolved-column bundle with every role unresolved. -/
def rAllNeg : ResolvedCols := ⟨-1, -1, -1, -1, -1, -1, -1, -1, -1, -1, -1, -1, -1, -1, -1, -1⟩

/-- The record built from a fully empty row: its id is the fallback hash of
`Uncategorized-`. -/
def genItem : InventoryItem :=
  ⟨"GEN-1819783205", "", "", "", some 0, "Unassigned", "Uncategorized", some 0, "",
   "Out of Stock", "", none, none, none, none⟩

set_option maxHeartbeats 1000000 in
set_option maxRecDepth 8000 in
/-- C5 witness: the empty row builds the record with id
`GEN-1819783205 = GEN-abs(hash("Uncategorized-"))`, which is non-empty. -/
theorem id_fallback_hash_witness :
    genItem.id = "GEN-" ++ toString (jsHashString "Uncategorized-").natAbs ∧
    genItem.id ≠ "" := by
  have hb : buildItem rAllNeg [] = some genItem := by decide
  have hth := id_fallback_hash rAllNeg [] genItem hb (by decide) (by decide) (by decide)
  constructor
  · have h2 : genItem.category ++ "-" ++ getValF [] rAllNeg.loc = "Uncategorized-" := by
      decide
    rw [← h2]
    exact hth.1
  · exact hth.2.2 rAllNeg [] genItem hb

set_option maxHeartbeats 2000000 in
/-- C6 evaluation at the failing input: with a resolved price column (index
4 via the `price` header) and a data row of only four cells, the price cell
lookup lands beyond the row — JS `cols[4]` is `undefined` and the
`.replace` call on it throws, aborting the whole parse (`none`).  The same
sheet with the price cell present parses fine: only the out-of-range price
lookup is unsafe. -/
theorem parse_price_out_of_range_throws :
    parseInventory "sku,model,description,qty,price\nX1,BMW,Wheel,5" emptyMapping = none ∧
    parseInventory "sku,model,description,qty,price\nX1,BMW,Wheel,5,9.50" emptyMapping
      ≠ none := by
  refine ⟨by decide, by decide⟩

/-- C7 counterexample: tokenizing the quoted line keeps the comma inside
the quotes; the field value is `a,"b"c`, not the claimed `a"b"c`. -/
theorem parseCSVLine_quoted_counterexample :
    parseCSVLine "\"a,\"\"b\"\"c\"" ≠ ["a\"b\"c"] := by
  decide

/-- C7 (amended): tokenizing `"a,""b""c"` yields exactly one field, of
value `a,"b"c`: the comma inside the quotes does not split the field and
each doubled quote decodes to one literal quote. -/
theorem parseCSVLine_quoted_field :
    parseCSVLine "\"a,\"\"b\"\"c\"" = ["a,\"b\"c"] ∧
    (parseCSVLine "\"a,\"\"b\"\"c\"").length = 1 := by
  refine ⟨by decide, by decide⟩

/-- C8 counterexample: a quantity cell holding only `-` strips to `-`,
which `parseInt` turns into `NaN` (`none`) — the quantity of a built record
is not always an integer, and this non-numeric cell does not default to
0. -/
theorem quantity_nan_counterexample :
    ((buildItem rA (parseCSVLine "G1,Audi,Gadget,-")).map fun it => it.quantity)
        = some none ∧
    (none : Option Int) ≠ some 0 := by
  refine ⟨by decide, by decide⟩

/-- C8 (amended): quantity is computed by stripping the quantity cell to
digits and minus signs, substituting "0" for the empty result and applying
JS `parseInt`; the result is `NaN` (`none`) exactly when the stripped
string starts with a minus sign not followed by a digit, and a cell with no
digits and no minus signs yields quantity 0. -/
theorem quantity_parse_rule (r : ResolvedCols) (cols : List String) (item : InventoryItem)
    (h : buildItem r cols = some item) :
    item.quantity = jsParseInt (jsOr (stripDigitsMinus (getValF cols r.qty)) "0") ∧
    (item.quantity = none ↔ badMinus (stripDigitsMinus (getValF cols r.qty)) = true) ∧
    ((getValF cols r.qty).data.all (fun c => !(c.isDigit || c = '-')) = true →
      item.quantity = some 0) := by
  rw [buildItem_some_iff] at h
  obtain ⟨pc, hpc, rfl⟩ := h
  refine ⟨mkItem_quantity r cols pc, ?_, ?_⟩
  · rw [mkItem_quantity]
    exact jsParseInt_strip_none_iff _
  · intro hall
    rw [mkItem_quantity]
    have hstrip : stripDigitsMinus (getValF cols r.qty) = "" := by
      rw [string_eq_iff]
      show (getValF cols r.qty).data.filter (fun c => c.isDigit || c = '-') = ("" : String).data
      rw [List.filter_eq_nil_iff]
      intro c hc
      have := List.all_eq_true.mp hall c hc
      simp only [Bool.not_eq_true'] at this
      rw [this]
      exact Bool.false_ne_true
    rw [hstrip]
    decide

/-- C8 witness: the quantity cell `7` parses to the integer 7. -/
theorem quantity_parse_rule_witness :
    ((buildItem rA (parseCSVLine "X9,BMW,Thing,7")).map fun it => it.quantity)
      = some (some 7) := by
  cases hEq : buildItem rA (parseCSVLine "X9,BMW,Thing,7") with
  | none => exact absurd hEq (by decide)
  | some item =>
    have hth := quantity_parse_rule rA (parseCSVLine "X9,BMW,Thing,7") item hEq
    rw [Option.map_some', hth.1]
    decide

/-- A resolved-column bundle whose five ETA slots are the first five
columns, every other role unresolved. -/
def rEta : ResolvedCols := ⟨-1, -1, -1, -1, -1, -1, -1, 0, 1, 2, 3, 4, -1, -1, -1, -1⟩

/-- C9 counterexample: when every ETA slot is dropped (all cells empty or
"n/a"), the record's `etas` field is absent (`undefined`), not the empty
sequence. -/
theorem etas_empty_counterexample :
    ((buildItem rEta ["n/a", "N/A", "", "", "n/a"]).map fun it => it.etas) = some none ∧
    (none : Option (List String)) ≠ some [] := by
  refine ⟨by decide, by decide⟩

/-- C9 (amended): `etas` is the ordered sequence of the five ETA-slot cell
values with empty and case-insensitive "n/a" entries removed — absent
(`undefined`) rather than present as the empty sequence when every slot is
dropped — and `eta` is the surviving values joined with `", "`. -/
theorem etas_rule (r : ResolvedCols) (cols : List String) (item : InventoryItem)
    (h : buildItem r cols = some item) :
    item.etas =
      (if (((etaIdxList r).map (getValF cols)).filter
            (fun v => v ≠ "" && lowerS v ≠ "n/a")) = [] then none
       else some (((etaIdxList r).map (getValF cols)).filter
         fun v => v ≠ "" && lowerS v ≠ "n/a")) ∧
    item.eta = joinSep ", " (((etaIdxList r).map (getValF cols)).filter
      fun v => v ≠ "" && lowerS v ≠ "n/a") := by
  rw [buildItem_some_iff] at h
  obtain ⟨pc, hpc, rfl⟩ := h
  refine ⟨?_, mkItem_eta r cols pc⟩
  rw [mkItem_etas]
  by_cases hL : (((etaIdxList r).map (getValF cols)).filter
      fun v => v ≠ "" && lowerS v ≠ "n/a") = []
  · rw [hL]
    decide
  · rw [if_neg hL, if_pos (List.length_pos.mpr hL)]

/-- C9 witness: the claim's Scenario F — slots `3/1, N/A, (empty), 3/15,
n/a` survive as `["3/1", "3/15"]` with `eta = "3/1, 3/15"`. -/
theorem etas_rule_witness :
    ((buildItem rEta ["3/1", "N/A", "", "3/15", "n/a"]).map fun it => (it.etas, it.eta))
      = some (some ["3/1", "3/15"], "3/1, 3/15") := by
  cases hEq : buildItem rEta ["3/1", "N/A", "", "3/15", "n/a"] with
  | none => exact absurd hEq (by decide)
  | some item =>
    have hth := etas_rule rEta ["3/1", "N/A", "", "3/15", "n/a"] item hEq
    rw [Option.map_some', hth.1, hth.2]
    decide

/-- C10: the conversion first deletes non-letters and upper-cases before
the base-26 read: "A1" resolves to 0 and " b " to 1; it yields -1 exactly
when the value is absent or has no letters; and whenever it yields -1 the
resolver falls through to the keyword and fallback tiers. -/
theorem getColumnIndex_lenient_cleaning :
    (∀ s : String, getColumnIndex (some s)
        = getColumnIndex (some ⟨(s.data.filter isLetterB).map upChar⟩)) ∧
    getColumnIndex (some "A1") = 0 ∧ getColumnIndex (some " b ") = 1 ∧
    (∀ v : Option String, getColumnIndex v = -1 ↔ hasLetterOpt v = false) ∧
    (∀ v kws fb hs, getColumnIndex v = -1 →
      resolveIndex v kws fb hs =
        (if findKeywordIdx kws hs ≠ -1 then findKeywordIdx kws hs else fb)) := by
  refine ⟨?_, by decide, by decide, getColumnIndex_eq_neg_one_iff, ?_⟩
  · intro s
    rw [getColumnIndex_some, getColumnIndex_some]
    exact (getColumnIndexL_clean s.data).symm
  · intro v kws fb hs hneg
    unfold resolveIndex
    rw [hneg, if_neg (by omega : ¬((-1 : Int) > -1))]

/-- C10 witness: a letter-free value falls through to the keyword tier, and
the mixed value "b2" converts like "B". -/
theorem getColumnIndex_lenient_cleaning_witness :
    resolveIndex (some "1!") ["qty"] 5 ["x", "qty"] = 1 ∧
    getColumnIndex (some "b2") = getColumnIndex (some ⟨("b2".data.filter isLetterB).map upChar⟩) := by
  constructor
  · have := getColumnIndex_lenient_cleaning.2.2.2.2 (some "1!") ["qty"] 5 ["x", "qty"]
      (by decide)
    rw [this]
    decide
  · exact getColumnIndex_lenient_cleaning.1 "b2"
